import Mathlib

/-!
Verification of `pkg/discovery/discovery.go` (kubediscovery).

This file gives a shallow embedding of the discovery package's pure core:
the in-memory provenance store (`storeProvenance`,
`purgeCompositionOfDeletedItems`), the tree builder (`buildProvenance`),
the query-side reconstruction (`getComposition`, `GetProvenance`), the
listing parser (`parseMetaData`) and the error/locking skeleton of
`getResourceListContent` and the store operations, and proves the claimed
properties about them.

Modelling conventions:
  - Go slices become `List`; Go `map[string]...` tables become association
    lists, iterated in list order (Go map iteration order is unspecified;
    every theorem below either quantifies over the list or uses a
    single-entry table where order is irrelevant).
  - Go zero values are made explicit: a missing map key yields `""`
    (`mapLookupD`), numeric fields start at `0`.
  - JSON numbers (`float64` in Go) are modelled as `Rat`; the replica
    counts the code compares are integral, so no rounding behaviour is
    involved.
  - Recursive procedures whose termination depends on runtime data
    (`buildProvenance`, `getComposition`) take an explicit fuel argument
    counting nested invocations and return `none` on fuel exhaustion.
  - Go panics (nil-pointer dereference, failed type assertion) are made
    explicit with `Except GoPanic`.
-/

namespace Kubediscovery

/-- One parsed instance from a listing document: `metadata.name`, the
owner reference fields, and the derived status
(struct `MetaDataAndOwnerReferences` of the repository). -/
structure MetaDataAndOwnerReferences where
  MetaDataName : String := ""
  OwnerReferenceName : String := ""
  OwnerReferenceKind : String := ""
  OwnerReferenceAPIVersion : String := ""
  Status : String := ""
deriving Repr, DecidableEq

/-- One level slice of a built tree: all instances of `ChildKind` found at
recursion depth `Level` (struct `CompositionTreeNode` of the repository). -/
structure CompositionTreeNode where
  Level : Nat
  ChildKind : String
  Children : List MetaDataAndOwnerReferences
deriving Repr, DecidableEq

/-- One stored provenance record (struct `Provenance` of the repository).
The Go field `CompositionTree *[]CompositionTreeNode` is modelled by value:
the refresh loop builds a fresh tree per record, so pointer sharing is not
observable in the claims below. -/
structure Provenance where
  Kind : String
  Name : String
  Status : String
  CompositionTree : List CompositionTreeNode
deriving Repr, DecidableEq

/-- Query-time nested output node (struct `Composition` of the repository;
field order `Level, Kind, Name, Status, Children` is the serialized shape
given by the spec, the struct declaration itself not being under `src/`). -/
structure Composition where
  Level : Nat
  Kind : String
  Name : String
  Status : String
  Children : List Composition
deriving Repr

/-- Go map index with the string zero value: first binding wins, missing
key yields `""`. -/
def mapLookupD (m : List (String × String)) (k : String) : String :=
  match m.find? (fun kv => kv.1 = k) with
  | some kv => kv.2
  | none => ""

/-- Association-list lookup for `compositionMap` (`map[string][]string`):
`some` iff the key is present, matching Go's two-valued map index. -/
def assocLookup (m : List (String × List String)) (k : String) : Option (List String) :=
  match m.find? (fun kv => kv.1 = k) with
  | some kv => some kv.2
  | none => none

/-! ## Provenance store: `storeProvenance` (discovery.go:519-550) -/

/-- The linear scan of `storeProvenance`: walk `cp.clusterProvenance`, and
for every record whose `(Kind, Name)` equals the given identity replace its
`Status` and `CompositionTree` in place; also report whether any record
matched (the `present` flag). -/
def updateScan (resourceKind resourceName newStatus : String)
    (tree : List CompositionTreeNode) :
    List Provenance → List Provenance × Bool
  | [] => ([], false)
  | p :: rest =>
    let (rest', found) := updateScan resourceKind resourceName newStatus tree rest
    if p.Kind = resourceKind ∧ p.Name = resourceName then
      ({ p with Status := newStatus, CompositionTree := tree } :: rest', true)
    else
      (p :: rest', found)

/-- `storeProvenance` (discovery.go:519-550): upsert by identity.  The Go
method scans the whole collection replacing the status and tree of every
record with the given `(Kind, Name)` and appends a new record when none
matched. -/
def storeProvenance (cp : List Provenance)
    (topLevelObject : MetaDataAndOwnerReferences)
    (resourceKind resourceName : String)
    (compositionTree : List CompositionTreeNode) : List Provenance :=
  let provenance : Provenance :=
    { Kind := resourceKind, Name := resourceName,
      Status := topLevelObject.Status, CompositionTree := compositionTree }
  let scanned := updateScan resourceKind resourceName topLevelObject.Status
    compositionTree cp
  if scanned.2 then scanned.1 else scanned.1 ++ [provenance]

/-! ## Provenance store: `purgeCompositionOfDeletedItems` (discovery.go:500-515) -/

/-- `purgeCompositionOfDeletedItems` (discovery.go:500-515): rebuild the
collection keeping, for every record and every seen top-level object whose
`MetaDataName` equals the record's `Name`, one copy of the record (the Go
inner loop has no `break`, so a record is appended once per matching seen
entry). -/
def purgeCompositionOfDeletedItems (cp : List Provenance)
    (topLevelMetaDataOwnerRefList : List MetaDataAndOwnerReferences) :
    List Provenance :=
  cp.foldl
    (fun presentList prov =>
      topLevelMetaDataOwnerRefList.foldl
        (fun acc topLevelObject =>
          if topLevelObject.MetaDataName = prov.Name then acc ++ [prov] else acc)
        presentList)
    []

/-! ## Tree builder: `filterChildren` and `buildProvenance` (discovery.go:602-634, 775-792) -/

/-- `filterChildren` (discovery.go:775-792): keep the instances whose
`OwnerReferenceName` equals the parent's name, dropping later duplicates of
an already-kept `MetaDataName` (first occurrence wins). -/
def filterChildren (metaDataSlice : List MetaDataAndOwnerReferences)
    (parentResourceName : String) : List MetaDataAndOwnerReferences :=
  metaDataSlice.foldl
    (fun acc metaDataRef =>
      if metaDataRef.OwnerReferenceName = parentResourceName then
        if acc.any (fun node => node.MetaDataName == metaDataRef.MetaDataName) then acc
        else acc ++ [metaDataRef]
      else acc)
    []

mutual

/-- `buildProvenance` (discovery.go:602-634).  `lister ck` stands for
`parseMetaData (getResourceListContent kindVersionMap[ck] KindPluralMap[ck])`,
the network fetch plus parse of child kind `ck`'s current instances; the
claims about `buildProvenance` quantify over this collaborator.  `fuel`
bounds the depth of nested `buildProvenance` invocations (the Go code has
no such bound); `none` means the bound was hit. -/
def buildProvenance (fuel : Nat)
    (compositionMap : List (String × List String))
    (lister : String → List MetaDataAndOwnerReferences)
    (parentResourceKind parentResourceName : String) (level : Nat)
    (compositionTree : List CompositionTreeNode) :
    Option (List CompositionTreeNode) :=
  match fuel with
  | 0 => none
  | Nat.succ f =>
    match assocLookup compositionMap parentResourceKind with
    | none => some compositionTree
    | some childResourceKindList =>
      buildChildKinds f compositionMap lister parentResourceName (level + 1)
        childResourceKindList compositionTree
termination_by (fuel, 0, 0)

/-- The loop of `buildProvenance` over the declared child kinds: fetch,
filter, emit one `CompositionTreeNode`, then recurse into each kept
instance. -/
def buildChildKinds (f : Nat)
    (compositionMap : List (String × List String))
    (lister : String → List MetaDataAndOwnerReferences)
    (parentResourceName : String) (level : Nat)
    (childKinds : List String)
    (compositionTree : List CompositionTreeNode) :
    Option (List CompositionTreeNode) :=
  match childKinds with
  | [] => some compositionTree
  | childResourceKind :: rest =>
    let metaDataAndOwnerReferenceList := lister childResourceKind
    let childrenList := filterChildren metaDataAndOwnerReferenceList parentResourceName
    let tree1 := compositionTree ++
      [{ Level := level, ChildKind := childResourceKind, Children := childrenList }]
    match buildMembers f compositionMap lister childResourceKind level childrenList tree1 with
    | none => none
    | some tree2 => buildChildKinds f compositionMap lister parentResourceName level rest tree2
termination_by (f, 2, childKinds.length)

/-- The inner loop of `buildProvenance` over the kept child instances:
recurse with `(childKind, childName, level)`. -/
def buildMembers (f : Nat)
    (compositionMap : List (String × List String))
    (lister : String → List MetaDataAndOwnerReferences)
    (childResourceKind : String) (level : Nat)
    (members : List MetaDataAndOwnerReferences)
    (compositionTree : List CompositionTreeNode) :
    Option (List CompositionTreeNode) :=
  match members with
  | [] => some compositionTree
  | metaDataRef :: ms =>
    match buildProvenance f compositionMap lister childResourceKind
        metaDataRef.MetaDataName level compositionTree with
    | none => none
    | some tree' => buildMembers f compositionMap lister childResourceKind level ms tree'
termination_by (f, 1, members.length)

end

mutual

/-- Length of the longest child-chain of `k` in the schema, computed with
fuel (the schema may be cyclic, in which case no fuel suffices and the
result is `none`): a kind absent from the schema or with an empty children
declaration has chain length `0`; otherwise one plus the longest chain of
any declared child. -/
def chainDepth (fuel : Nat) (compositionMap : List (String × List String))
    (k : String) : Option Nat :=
  match fuel with
  | 0 => none
  | Nat.succ f =>
    match assocLookup compositionMap k with
    | none => some 0
    | some cs => chainDepthList f compositionMap cs 0
termination_by (fuel, 0)

/-- Running maximum of `1 + chainDepth child` over a children list. -/
def chainDepthList (f : Nat) (compositionMap : List (String × List String))
    (cs : List String) (acc : Nat) : Option Nat :=
  match cs with
  | [] => some acc
  | c :: rest =>
    match chainDepth f compositionMap c with
    | none => none
    | some d => chainDepthList f compositionMap rest (max acc (d + 1))
termination_by (f, cs.length + 1)

end

/-- A lister returning, for every kind, one instance named `n0` that
declares `n0` as its owner: starting a build at name `n0`, every declared
child kind contributes exactly this instance at every level, so the build
recurses along every schema edge. -/
def selfOwnerLister (n0 : String) :
    String → List MetaDataAndOwnerReferences :=
  fun _ => [{ MetaDataName := n0, OwnerReferenceName := n0 }]

/-! ## Query engine: `processed` and `getComposition` (discovery.go:358-409) -/

/-- `processed` (discovery.go:358-368): a node counts as already expanded
when some entry of the processed list has the same `Level` and `ChildKind`. -/
def processed (processedList : List CompositionTreeNode)
    (nodeToCheck : CompositionTreeNode) : Bool :=
  processedList.any fun n1 =>
    n1.Level == nodeToCheck.Level && n1.ChildKind == nodeToCheck.ChildKind

mutual

/-- `getComposition` (discovery.go:370-409).  The processed list is a
shared mutable slice in Go (`*[]CompositionTreeNode`); it is threaded
through explicitly and returned.  `fuel` bounds the depth of nested
`getComposition` invocations. -/
def getComposition (fuel : Nat) (kind name status : String) (level : Nat)
    (compositionTree processedList : List CompositionTreeNode) :
    Option (Composition × List CompositionTreeNode) :=
  match fuel with
  | 0 => none
  | Nat.succ f =>
    match gcNodeLoop f compositionTree compositionTree processedList [] with
    | none => none
    | some (children, processedList') =>
      some ({ Level := level, Kind := kind, Name := name, Status := status,
              Children := children }, processedList')
termination_by (fuel, 0, 0)

/-- The outer loop of `getComposition` over the flat tree.  `treeVar` is
the current value of the Go local variable `compositionTree`: the range
expression was evaluated once at loop entry (the `nodes` argument), but
the variable itself is reassigned to an empty slice after every expanded
member, which is what the inner loop reads when trimming. -/
def gcNodeLoop (f : Nat) (nodes : List CompositionTreeNode)
    (treeVar processedList : List CompositionTreeNode)
    (acc : List Composition) :
    Option (List Composition × List CompositionTreeNode) :=
  match nodes with
  | [] => some (acc, processedList)
  | node :: rest =>
    if processed processedList node then
      gcNodeLoop f rest treeVar processedList acc
    else
      match gcMemberLoop f node node.Children treeVar processedList acc with
      | none => none
      | some (treeVar', processedList', acc') =>
        gcNodeLoop f rest treeVar' processedList' acc'
termination_by (f, 2, nodes.length)

/-- The inner loop of `getComposition` over one slice's members: trim the
current `treeVar` to the nodes differing in both level and kind, mark the
slice processed (once per member, as the Go code does), recurse, and then
reassign `treeVar` to the empty slice (`compositionTree = &[]CompositionTreeNode{}`,
discovery.go:405). -/
def gcMemberLoop (f : Nat) (node : CompositionTreeNode)
    (members : List MetaDataAndOwnerReferences)
    (treeVar processedList : List CompositionTreeNode)
    (acc : List Composition) :
    Option (List CompositionTreeNode × List CompositionTreeNode × List Composition) :=
  match members with
  | [] => some (treeVar, processedList, acc)
  | metaDataNode :: ms =>
    let trimmedTree := treeVar.filter fun n1 =>
      decide (n1.Level ≠ node.Level) && decide (n1.ChildKind ≠ node.ChildKind)
    match getComposition f node.ChildKind metaDataNode.MetaDataName
        metaDataNode.Status node.Level trimmedTree (processedList ++ [node]) with
    | none => none
    | some (child, processedList2) =>
      gcMemberLoop f node ms [] processedList2 (acc ++ [child])
termination_by (f, 1, members.length)

end

/-! ## Query engine: `GetProvenance` (discovery.go:447-498) -/

/-- `strings.ToLower` as the code applies it: per-character lowercasing
(`Char.toLower`); every kind and name involved is ASCII, where this agrees
with Go's Unicode lowering. -/
def strToLower (s : String) : String := String.mk (s.data.map Char.toLower)

/-- The reverse lookup inside `GetProvenance`'s loop (discovery.go:468-474):
the first plural-table key whose value matches `resourceKindPlural`
case-insensitively, lowercased; the Go zero value `""` when none matches. -/
def reverseLookupKind (kindPluralMap : List (String × String))
    (resourceKindPlural : String) : String :=
  match kindPluralMap.find? (fun kv =>
      strToLower kv.2 = strToLower resourceKindPlural) with
  | some kv => strToLower kv.1
  | none => ""

/-- The per-record match test of `GetProvenance`'s loop (discovery.go:458-489):
lowercase the stored kind and name, resolve the query kind by a
case-sensitive plural-table index followed by the case-insensitive reverse
lookup, lowercase the query name, then either wildcard-match on the kind or
match kind and name. -/
def recordMatches (kindPluralMap : List (String × String))
    (queryKind queryName : String) (provenanceItem : Provenance) : Bool :=
  let resourceKindPlural := mapLookupD kindPluralMap queryKind
  let kind := strToLower provenanceItem.Kind
  let name := strToLower provenanceItem.Name
  let resourceKind := reverseLookupKind kindPluralMap resourceKindPlural
  let resourceName := strToLower queryName
  if resourceName = "*" then decide (resourceKind = kind)
  else decide (resourceKind = kind ∧ resourceName = name)

/-- One iteration of the records loop of `GetProvenance`
(discovery.go:458-490): if the record passes `recordMatches`, reconstruct
a nested `Composition` from its flat tree (with lowercased kind and name,
a fresh empty processed list, and level 1) and append it.  `none` only on
fuel exhaustion inside a reconstruction. -/
def getProvenanceStep (fuel : Nat)
    (kindPluralMap : List (String × String))
    (resourceKind resourceName : String) :
    Option (List Composition) → Provenance → Option (List Composition)
  | none, _ => none
  | some compositions, provenanceItem =>
    if recordMatches kindPluralMap resourceKind resourceName provenanceItem then
      match getComposition fuel (strToLower provenanceItem.Kind)
          (strToLower provenanceItem.Name) provenanceItem.Status 1
          provenanceItem.CompositionTree [] with
      | none => none
      | some (composition, _) => some (compositions ++ [composition])
    else some compositions

/-- The records-to-compositions loop of `GetProvenance` as a fold of
`getProvenanceStep` over the stored collection. -/
def getProvenanceCompositions (fuel : Nat)
    (kindPluralMap : List (String × String)) (cp : List Provenance)
    (resourceKind resourceName : String) : Option (List Composition) :=
  cp.foldl (getProvenanceStep fuel kindPluralMap resourceKind resourceName)
    (some [])

/-! ## JSON serialization of the query result (discovery.go:492-497)

`json.Marshal` on `[]Composition`.  The `Composition` struct declaration is
not under `src/`; the field set and order `Level, Kind, Name, Status,
Children` follow the serialized shape the spec gives for the query output.
Strings are emitted between plain quotes: Go additionally escapes quote,
backslash and control characters, none of which occur in any input below. -/

/-- Quote a JSON string (no escaping; see the section comment). -/
def marshalString (s : String) : String := "\"" ++ s ++ "\""

mutual

/-- `json.Marshal` of one `Composition` value. -/
def marshalComposition (c : Composition) : String :=
  match c with
  | { Level := level, Kind := kind, Name := name, Status := status,
      Children := children } =>
    "\x7b\"Level\":" ++ toString level ++
    ",\"Kind\":" ++ marshalString kind ++
    ",\"Name\":" ++ marshalString name ++
    ",\"Status\":" ++ marshalString status ++
    ",\"Children\":[" ++ marshalCompositionSep children ++ "]\x7d"

/-- Comma-separated `json.Marshal` of the elements of a `Composition`
list (without the surrounding brackets). -/
def marshalCompositionSep (l : List Composition) : String :=
  match l with
  | [] => ""
  | [c] => marshalComposition c
  | c :: rest => marshalComposition c ++ "," ++ marshalCompositionSep rest

end

/-- `GetProvenance` (discovery.go:447-498): match, reconstruct, serialize.
An empty match list serializes as `"[]"` exactly as Go marshals the empty
non-nil slice `[]Composition{}`. -/
def GetProvenance (fuel : Nat) (kindPluralMap : List (String × String))
    (cp : List Provenance) (resourceKind resourceName : String) :
    Option String :=
  (getProvenanceCompositions fuel kindPluralMap cp resourceKind resourceName).map
    fun compositions => "[" ++ marshalCompositionSep compositions ++ "]"

/-! ## Resource lister: `getResourceListContent` (discovery.go:636-676) -/

/-- A Go runtime panic relevant to this file: dereferencing a nil pointer,
or a failed single-valued interface type assertion. -/
inductive GoPanic where
  | nilPointerDereference
  | typeAssertion
deriving Repr, DecidableEq

/-- The outcome of `client.Do(req)` as `getResourceListContent` sees it:
`none` models `err != nil` (transport failure), in which case the returned
`*http.Response` is nil; `some body` models a response with the given body
bytes. -/
def HttpDoResult := Option String

/-- The continuation of `getResourceListContent` after `client.Do`
(discovery.go:664-675): on `err != nil` the code only logs and prints the
error and then executes `defer resp.Body.Close()` and
`ioutil.ReadAll(resp.Body)` on the nil `resp`, a nil-pointer dereference
panic; on success it returns the body bytes. -/
def getResourceListContent (doResult : HttpDoResult) : Except GoPanic String :=
  match doResult with
  | none => Except.error GoPanic.nilPointerDereference
  | some respBody => Except.ok respBody

/-! ## Listing parser: `parseMetaData` (discovery.go:679-773) -/

/-- A decoded JSON value as `json.Unmarshal` into `interface{}` produces
it: objects are association lists iterated in list order (Go randomizes
map order; the claims below fix a concrete order or quantify over it). -/
inductive JValue where
  | jnull
  | jbool (b : Bool)
  | jnum (q : Rat)
  | jstr (s : String)
  | jarr (elems : List JValue)
  | jobj (fields : List (String × JValue))

/-- Field access on a decoded JSON object: first binding wins. -/
def lookupField (fields : List (String × JValue)) (k : String) : Option JValue :=
  (fields.find? (fun kv => kv.1 = k)).map (fun kv => kv.2)

/-- The `ownerReferences` element loop (discovery.go:712-726): each of
`name`, `kind`, `apiVersion` is type-asserted to a string and copied into
the reference under construction. -/
def parseOwnerReference (metaDataRef : MetaDataAndOwnerReferences)
    (ownerReferenceMap : List (String × JValue)) :
    Except GoPanic MetaDataAndOwnerReferences :=
  ownerReferenceMap.foldl
    (fun st kv => st.bind fun ref =>
      if kv.1 = "name" then
        match kv.2 with
        | JValue.jstr s => Except.ok { ref with OwnerReferenceName := s }
        | _ => Except.error GoPanic.typeAssertion
      else if kv.1 = "kind" then
        match kv.2 with
        | JValue.jstr s => Except.ok { ref with OwnerReferenceKind := s }
        | _ => Except.error GoPanic.typeAssertion
      else if kv.1 = "apiVersion" then
        match kv.2 with
        | JValue.jstr s => Except.ok { ref with OwnerReferenceAPIVersion := s }
        | _ => Except.error GoPanic.typeAssertion
      else Except.ok ref)
    (Except.ok metaDataRef)

/-- The `metadata` value loop (discovery.go:707-731): `ownerReferences` is
asserted to a list of objects and folded by `parseOwnerReference` (a later
reference overwrites an earlier one's fields, as in the Go loop); `name`
is asserted to a string. -/
def parseMetadataMap (metaDataRef : MetaDataAndOwnerReferences)
    (metadataMap : List (String × JValue)) :
    Except GoPanic MetaDataAndOwnerReferences :=
  metadataMap.foldl
    (fun st kv => st.bind fun ref =>
      if kv.1 = "ownerReferences" then
        match kv.2 with
        | JValue.jarr ownerReferencesList =>
          ownerReferencesList.foldl
            (fun st2 ownerReference => st2.bind fun ref2 =>
              match ownerReference with
              | JValue.jobj ownerReferenceMap =>
                parseOwnerReference ref2 ownerReferenceMap
              | _ => Except.error GoPanic.typeAssertion)
            (Except.ok ref)
        | _ => Except.error GoPanic.typeAssertion
      else if kv.1 = "name" then
        match kv.2 with
        | JValue.jstr s => Except.ok { ref with MetaDataName := s }
        | _ => Except.error GoPanic.typeAssertion
      else Except.ok ref)
    (Except.ok metaDataRef)

/-- Accumulator of the `status` value loop: the status string seen so far
and the three replica counters, which are Go local `float64` variables
starting at `0`. -/
structure StatusAcc where
  status : String
  replicas : Rat
  readyReplicas : Rat
  availableReplicas : Rat

/-- The `status` value loop plus the Ready derivation (discovery.go:735-757):
`phase` writes the status directly; `replicas`, `readyReplicas`,
`availableReplicas` fill the counters (each asserted to a number); after
the loop, if `replicas > 0` and equals both other counters, the status is
overwritten with `"Ready"`. -/
def parseStatusMap (metaDataRef : MetaDataAndOwnerReferences)
    (statusMap : List (String × JValue)) :
    Except GoPanic MetaDataAndOwnerReferences :=
  (statusMap.foldl
    (fun st kv => st.bind fun (acc : StatusAcc) =>
      if kv.1 = "phase" then
        match kv.2 with
        | JValue.jstr s => Except.ok { acc with status := s }
        | _ => Except.error GoPanic.typeAssertion
      else if kv.1 = "replicas" then
        match kv.2 with
        | JValue.jnum q => Except.ok { acc with replicas := q }
        | _ => Except.error GoPanic.typeAssertion
      else if kv.1 = "readyReplicas" then
        match kv.2 with
        | JValue.jnum q => Except.ok { acc with readyReplicas := q }
        | _ => Except.error GoPanic.typeAssertion
      else if kv.1 = "availableReplicas" then
        match kv.2 with
        | JValue.jnum q => Except.ok { acc with availableReplicas := q }
        | _ => Except.error GoPanic.typeAssertion
      else Except.ok acc)
    (Except.ok ({ status := metaDataRef.Status, replicas := 0,
                  readyReplicas := 0, availableReplicas := 0 } : StatusAcc))).map
    fun acc =>
      if 0 < acc.replicas ∧ acc.replicas = acc.availableReplicas ∧
          acc.replicas = acc.readyReplicas then
        { metaDataRef with Status := "Ready" }
      else
        { metaDataRef with Status := acc.status }

/-- The per-item key loop of `parseMetaData` (discovery.go:692-767).  The
append of the item under construction sits inside the loop over the item's
keys: after each key, the item is appended whenever `metadataProcessed`
(and, if a `status` key exists anywhere in the item, `statusProcessed`)
is already set.  State: (ref, metadataProcessed, statusProcessed,
accumulated slice). -/
def parseItem (itemConverted : List (String × JValue))
    (metaDataSlice : List MetaDataAndOwnerReferences) :
    Except GoPanic (List MetaDataAndOwnerReferences) :=
  let statusKeyExists := itemConverted.any fun kv => kv.1 = "status"
  (itemConverted.foldl
    (fun st kv => st.bind fun s =>
      match s with
      | (ref, metadataProcessed, statusProcessed, out) =>
        let step : Except GoPanic (MetaDataAndOwnerReferences × Bool × Bool) :=
          if kv.1 = "metadata" then
            match kv.2 with
            | JValue.jobj metadataMap =>
              (parseMetadataMap ref metadataMap).map fun ref' =>
                (ref', true, statusProcessed)
            | _ => Except.error GoPanic.typeAssertion
          else if kv.1 = "status" then
            match kv.2 with
            | JValue.jobj statusMap =>
              (parseStatusMap ref statusMap).map fun ref' =>
                (ref', metadataProcessed, true)
            | _ => Except.error GoPanic.typeAssertion
          else Except.ok (ref, metadataProcessed, statusProcessed)
        step.map fun s' =>
          match s' with
          | (ref', mp', sp') =>
            let out' :=
              if statusKeyExists then
                if mp' && sp' then out ++ [ref'] else out
              else
                if mp' then out ++ [ref'] else out
            (ref', mp', sp', out'))
    (Except.ok ({}, false, false, metaDataSlice))).map
    fun s => s.2.2.2

/-- `parseMetaData` (discovery.go:679-773): take the `items` array of the
unmarshalled listing (a non-object document or a missing or non-array
`items` key fails the two-valued assertion and yields the empty slice),
assert each item to an object, and run the per-item key loop. -/
def parseMetaData (content : JValue) :
    Except GoPanic (List MetaDataAndOwnerReferences) :=
  match content with
  | JValue.jobj fields =>
    match lookupField fields "items" with
    | some (JValue.jarr items) =>
      items.foldl
        (fun st item => st.bind fun metaDataSlice =>
          match item with
          | JValue.jobj itemConverted => parseItem itemConverted metaDataSlice
          | _ => Except.error GoPanic.typeAssertion)
        (Except.ok [])
    | _ => Except.ok []
  | _ => Except.ok []

/-- Number of elements of the `items` array of a listing document. -/
def itemsCount (content : JValue) : Nat :=
  match content with
  | JValue.jobj fields =>
    match lookupField fields "items" with
    | some (JValue.jarr items) => items.length
    | _ => 0
  | _ => 0

/-- A status object carrying an optional `phase` string and optional
numeric `replicas`, `readyReplicas`, `availableReplicas` fields, in that
key order. -/
def statusFields (phase : Option String)
    (replicas readyReplicas availableReplicas : Option Rat) :
    List (String × JValue) :=
  (match phase with | some p => [("phase", JValue.jstr p)] | none => []) ++
  (match replicas with | some v => [("replicas", JValue.jnum v)] | none => []) ++
  (match readyReplicas with
   | some v => [("readyReplicas", JValue.jnum v)] | none => []) ++
  (match availableReplicas with
   | some v => [("availableReplicas", JValue.jnum v)] | none => [])

/-! ## Locking skeleton of the store operations (discovery.go:335-356,
447-449, 500-515, 519-523)

Each store operation is abstracted to its sequence of lock and collection
events, read off the method bodies: `storeProvenance`, `GetProvenance` and
`PrintProvenance` open with `cp.mux.Lock()` and `defer cp.mux.Unlock()`;
`purgeCompositionOfDeletedItems` contains no lock call at all and both
reads and reassigns `cp.clusterProvenance`. -/

/-- A primitive event on the shared store: acquiring or releasing
`cp.mux`, or touching `cp.clusterProvenance`. -/
inductive StoreEvent where
  | lock
  | unlock
  | readCollection
  | writeCollection
deriving Repr, DecidableEq

/-- Event sequence of `storeProvenance` (discovery.go:519-550): lock, scan
the collection, write it, unlock on return. -/
def storeProvenanceEvents : List StoreEvent :=
  [StoreEvent.lock, StoreEvent.readCollection, StoreEvent.writeCollection,
   StoreEvent.unlock]

/-- Event sequence of `GetProvenance` (discovery.go:447-498): lock, read
the collection, unlock on return. -/
def getProvenanceEvents : List StoreEvent :=
  [StoreEvent.lock, StoreEvent.readCollection, StoreEvent.unlock]

/-- Event sequence of `PrintProvenance` (discovery.go:335-356): lock, read
the collection, unlock on return. -/
def printProvenanceEvents : List StoreEvent :=
  [StoreEvent.lock, StoreEvent.readCollection, StoreEvent.unlock]

/-- Event sequence of `purgeCompositionOfDeletedItems` (discovery.go:500-515):
read the collection and reassign it; the method never touches `cp.mux`. -/
def purgeEvents : List StoreEvent :=
  [StoreEvent.readCollection, StoreEvent.writeCollection]

/-- Scan an event sequence with the current lock depth: every collection
access must happen while the lock is held. -/
def accessesUnderLock : Nat → List StoreEvent → Bool
  | _, [] => true
  | d, StoreEvent.lock :: rest => accessesUnderLock (d + 1) rest
  | 0, StoreEvent.unlock :: _ => false
  | Nat.succ d, StoreEvent.unlock :: rest => accessesUnderLock d rest
  | d, StoreEvent.readCollection :: rest => decide (0 < d) && accessesUnderLock d rest
  | d, StoreEvent.writeCollection :: rest => decide (0 < d) && accessesUnderLock d rest

/-! ## Concrete instances used by the claims -/

/-- Plural-name table with the `Deployment` entry of `init()`
(discovery.go:84). -/
def deploymentKindPluralMap : List (String × String) :=
  [("Deployment", "deployments")]

/-- A store holding one record of kind `Deployment` named `myapp`. -/
def deploymentStore : List Provenance :=
  [{ Kind := "Deployment", Name := "myapp", Status := "", CompositionTree := [] }]

/-- The round-trip schema `A → [B], B → []`. -/
def abCompositionMap : List (String × List String) := [("A", ["B"]), ("B", [])]

/-- Plural names for the round-trip schema. -/
def abKindPluralMap : List (String × String) := [("A", "as"), ("B", "bs")]

/-- Round-trip lister: exactly one B-instance `b1` owned by `a1`. -/
def abLister : String → List MetaDataAndOwnerReferences :=
  fun ck =>
    if ck = "B" then [{ MetaDataName := "b1", OwnerReferenceName := "a1" }] else []

/-- The top-level A-instance `a1` (no owner, empty status). -/
def a1Object : MetaDataAndOwnerReferences := { MetaDataName := "a1" }

/-- The flat tree `buildProvenance` produces for `(A, a1)` under
`abCompositionMap` and `abLister`. -/
def abTree : List CompositionTreeNode :=
  [{ Level := 2, ChildKind := "B",
     Children := [{ MetaDataName := "b1", OwnerReferenceName := "a1" }] }]

/-- The serialized tree the round-trip claim expects. -/
def abClaimedOutput : String :=
  "[\x7b\"Level\":1,\"Kind\":\"A\",\"Name\":\"a1\",\"Children\":[\x7b\"Level\":2,\"Kind\":\"B\",\"Name\":\"b1\",\"Children\":[]\x7d]\x7d]"

/-- The serialized tree the code actually produces for the round trip:
the root kind is the lowercased stored kind and every node carries its
`Status` field. -/
def abActualOutput : String :=
  "[\x7b\"Level\":1,\"Kind\":\"a\",\"Name\":\"a1\",\"Status\":\"\",\"Children\":[\x7b\"Level\":2,\"Kind\":\"B\",\"Name\":\"b1\",\"Status\":\"\",\"Children\":[]\x7d]\x7d]"

/-- A listing document with exactly one item whose object has a key
(`spec`) besides `metadata` and `status`, iterated after them. -/
def duplicatingListingDoc : JValue :=
  JValue.jobj [("items", JValue.jarr
    [JValue.jobj
      [("metadata", JValue.jobj [("name", JValue.jstr "pod1")]),
       ("status", JValue.jobj [("phase", JValue.jstr "Running")]),
       ("spec", JValue.jobj [])]])]

/-- The single snapshot the item of `duplicatingListingDoc` describes. -/
def pod1Snapshot : MetaDataAndOwnerReferences :=
  { MetaDataName := "pod1", Status := "Running" }

/-- Two seen identities sharing the name `n`. -/
def duplicateSeenList : List MetaDataAndOwnerReferences :=
  [{ MetaDataName := "n" }, { MetaDataName := "n", OwnerReferenceKind := "Other" }]

/-- A store holding one record named `n`. -/
def singletonNStore : List Provenance :=
  [{ Kind := "A", Name := "n", Status := "", CompositionTree := [] }]

/-! ## Claim C2 -/

/-- C2: a failed listing call does not yield an empty instance list for
the cycle — `getResourceListContent` dereferences the nil response
(`resp.Body`, discovery.go:669-670) and panics, so the error escapes the
refresh cycle instead of being swallowed.  The code's own handling (log
and continue, discovery.go:665-668) shows the swallowing was intended. -/
theorem getResourceListContent_panics_on_do_error :
    getResourceListContent none = Except.error GoPanic.nilPointerDereference ∧
    ∀ body : String, getResourceListContent none ≠ Except.ok body := by
  refine ⟨rfl, fun body h => ?_⟩
  simp [getResourceListContent] at h

/-! ## Claim C9 -/

/-- C9: the claim that every store operation holds `cp.mux` for its
duration fails on the code: upsert, query and print do hold the lock
around their collection accesses, but `purgeCompositionOfDeletedItems`
reads and reassigns `cp.clusterProvenance` with no lock call at all
(discovery.go:500-515), so a concurrent query can run during the purge's
replacement of the collection. -/
theorem purge_accesses_collection_without_lock :
    accessesUnderLock 0 storeProvenanceEvents = true ∧
    accessesUnderLock 0 getProvenanceEvents = true ∧
    accessesUnderLock 0 printProvenanceEvents = true ∧
    accessesUnderLock 0 purgeEvents = false := by
  decide

/-! ## Claim C10 -/

/-- C10: `parseMetaData` returns more snapshots than the document has
items.  The appended-inside-the-key-loop slip (discovery.go:760-766) makes
the single item of `duplicatingListingDoc` — whose keys iterate as
`metadata`, `status`, `spec` — be appended once when `status` completes
both flags and once more on the `spec` iteration, giving two identical
snapshots for one item. -/
theorem parseMetaData_duplicates_snapshots :
    itemsCount duplicatingListingDoc = 1 ∧
    parseMetaData duplicatingListingDoc =
      Except.ok [pod1Snapshot, pod1Snapshot] := by
  exact ⟨rfl, rfl⟩

/-! ## Claim C4 -/

/-- C4 counterexample: with two seen identities sharing the name `n`, the
purge of a store holding one record named `n` appends that record once per
matching seen entry (the inner loop of discovery.go:505-511 has no
`break`), so the store afterwards holds two copies — not exactly the
retained records, against the claim's "for every list of seen
identities". -/
theorem purge_duplicate_seen_counterexample :
    purgeCompositionOfDeletedItems singletonNStore duplicateSeenList ≠
      singletonNStore.filter
        (fun prov => duplicateSeenList.any
          fun t => t.MetaDataName == prov.Name) ∧
    (purgeCompositionOfDeletedItems singletonNStore duplicateSeenList).length = 2 := by
  refine ⟨?_, rfl⟩
  decide

/-! ## Claim C3 -/

/-- C3 counterexample: the round trip for the schema `A → [B]` with one
A-instance `a1` owning one B-instance `b1` does not serialize as the claim
states — `GetProvenance` lowercases the stored kind before reconstruction
(discovery.go:459, 481) so the root kind is `"a"` not `"A"`, and
`json.Marshal` emits the `Status` field of every node, which the claimed
string omits. -/
theorem roundTrip_output_differs_from_claim :
    buildProvenance 3 abCompositionMap abLister "A" "a1" 1 [] = some abTree ∧
    GetProvenance 3 abKindPluralMap
      (storeProvenance [] a1Object "A" "a1" abTree) "A" "a1" =
      some abActualOutput ∧
    abActualOutput ≠ abClaimedOutput := by
  refine ⟨?_, ?_, by decide⟩
  · simp [buildProvenance, buildChildKinds, buildMembers, filterChildren,
      assocLookup, abCompositionMap, abLister, abTree]
  · simp [GetProvenance, getProvenanceCompositions, getProvenanceStep, recordMatches, mapLookupD,
      reverseLookupKind, strToLower, getComposition, gcNodeLoop, gcMemberLoop,
      processed, storeProvenance, updateScan, abKindPluralMap, abTree, a1Object,
      marshalComposition, marshalCompositionSep, marshalString, abActualOutput]
    decide

/-- C3 amended: building the tree for `(A, a1)` under the schema
`{A → [B], B → []}` with one A-instance `a1` owning one B-instance `b1`,
storing it, and querying `(A, a1)` yields the nested serialized tree with
the root kind lowercased and a `Status` field on every node:
`[{"Level":1,"Kind":"a","Name":"a1","Status":"","Children":[{"Level":2,"Kind":"B","Name":"b1","Status":"","Children":[]}]}]`. -/
theorem roundTrip_build_store_query :
    buildProvenance 3 abCompositionMap abLister "A" "a1" 1 [] = some abTree ∧
    GetProvenance 3 abKindPluralMap
      (storeProvenance [] a1Object "A" "a1" abTree) "A" "a1" =
      some abActualOutput := by
  constructor
  · simp [buildProvenance, buildChildKinds, buildMembers, filterChildren,
      assocLookup, abCompositionMap, abLister, abTree]
  · simp [GetProvenance, getProvenanceCompositions, getProvenanceStep, recordMatches, mapLookupD,
      reverseLookupKind, strToLower, getComposition, gcNodeLoop, gcMemberLoop,
      processed, storeProvenance, updateScan, abKindPluralMap, abTree, a1Object,
      marshalComposition, marshalCompositionSep, marshalString, abActualOutput]
    decide

/-! ## Claim C1 -/

/-- C1 counterexample: querying with a kind differing from the stored one
only in case returns nothing.  `GetProvenance` indexes the plural table
with the query kind case-sensitively (`KindPluralMap[resourceKind]`,
discovery.go:454) before the case-insensitive reverse lookup, so
`Query("deployment", "MyApp")` against a stored record `(Deployment,
myapp)` resolves no kind and matches no record, although kind and name
differ from the stored ones only in letter case. -/
theorem query_lowercased_kind_misses :
    strToLower "deployment" = strToLower "Deployment" ∧
    strToLower "MyApp" = strToLower "myapp" ∧
    getProvenanceCompositions 5 deploymentKindPluralMap deploymentStore
      "deployment" "MyApp" = some [] ∧
    GetProvenance 5 deploymentKindPluralMap deploymentStore
      "deployment" "MyApp" = some "[]" := by
  refine ⟨by decide, by decide, ?_, ?_⟩
  · simp [getProvenanceCompositions, getProvenanceStep, recordMatches, mapLookupD,
      reverseLookupKind, strToLower, deploymentKindPluralMap, deploymentStore]
  · simp [GetProvenance, getProvenanceCompositions, getProvenanceStep, recordMatches, mapLookupD,
      reverseLookupKind, strToLower, deploymentKindPluralMap, deploymentStore,
      marshalCompositionSep]

/-! ## Helper lemmas on the store operations -/

/-- The inner loop of the purge appends the record once per seen entry
with a matching name. -/
lemma purgeInnerFold (prov : Provenance) :
    ∀ (seen : List MetaDataAndOwnerReferences) (acc : List Provenance),
      seen.foldl
        (fun acc topLevelObject =>
          if topLevelObject.MetaDataName = prov.Name then acc ++ [prov] else acc)
        acc =
      acc ++ (seen.filter fun t => decide (t.MetaDataName = prov.Name)).map
        (fun _ => prov) := by
  intro seen
  induction seen with
  | nil => intro acc; simp
  | cons t rest ih =>
    intro acc
    by_cases hm : t.MetaDataName = prov.Name
    · simp [List.foldl_cons, hm, ih, List.filter_cons]
    · simp [List.foldl_cons, hm, ih, List.filter_cons]

/-- Under pairwise-distinct seen names, at most one seen entry matches a
record, so the per-record contribution is the filtered singleton. -/
lemma filterSeenSingleton (x : Provenance) (nm : String) :
    ∀ (seen : List MetaDataAndOwnerReferences),
      (seen.map MetaDataAndOwnerReferences.MetaDataName).Nodup →
      (seen.filter fun t => decide (t.MetaDataName = nm)).map (fun _ => x) =
        if seen.any (fun t => decide (t.MetaDataName = nm)) then [x] else [] := by
  intro seen
  induction seen with
  | nil => intro _; simp
  | cons t rest ih =>
    intro hnd
    have hnd' := hnd
    rw [List.map_cons, List.nodup_cons] at hnd'
    by_cases hm : t.MetaDataName = nm
    · have hrest : rest.filter (fun t => decide (t.MetaDataName = nm)) = [] := by
        apply List.filter_eq_nil_iff.mpr
        intro t' ht'
        simp only [decide_eq_true_eq]
        intro heq
        exact hnd'.1 (List.mem_map.mpr ⟨t', ht', by rw [heq, ← hm]⟩)
      simp [List.filter_cons, hm, hrest]
    · simp [List.filter_cons, hm, ih hnd'.2]

/-- The outer loop of the purge, generalized over the accumulator. -/
lemma purgeOuterFold (seen : List MetaDataAndOwnerReferences)
    (hnd : (seen.map MetaDataAndOwnerReferences.MetaDataName).Nodup) :
    ∀ (cp : List Provenance) (acc : List Provenance),
      cp.foldl
        (fun presentList prov =>
          seen.foldl
            (fun acc topLevelObject =>
              if topLevelObject.MetaDataName = prov.Name then acc ++ [prov]
              else acc)
            presentList)
        acc =
      acc ++ cp.filter
        (fun prov => seen.any fun t => decide (t.MetaDataName = prov.Name)) := by
  intro cp
  induction cp with
  | nil => intro acc; simp
  | cons p rest ih =>
    intro acc
    rw [List.foldl_cons, purgeInnerFold, filterSeenSingleton p p.Name seen hnd, ih,
      List.filter_cons]
    by_cases hm : seen.any (fun t => decide (t.MetaDataName = p.Name))
    · simp [hm]
    · simp [hm]

/-! ## Claim C4 (amended) -/

/-- C4 amended: provided the names in `seen` are pairwise distinct (which
the refresh loop guarantees by deduplicating `resourceInCluster` by name,
discovery.go:130-140), `Purge(seen)` leaves exactly the records whose name
appears among the seen names, in order, matching by name only; with
duplicate seen names a record is instead kept once per matching entry. -/
theorem purge_retains_named_records (cp : List Provenance)
    (seen : List MetaDataAndOwnerReferences)
    (hnd : (seen.map MetaDataAndOwnerReferences.MetaDataName).Nodup) :
    purgeCompositionOfDeletedItems cp seen =
      cp.filter
        (fun prov => seen.any fun t => decide (t.MetaDataName = prov.Name)) := by
  unfold purgeCompositionOfDeletedItems
  rw [purgeOuterFold seen hnd cp []]
  simp

/-- Witness for C4 amended at a concrete store and seen list. -/
theorem purge_retains_named_records_witness :
    purgeCompositionOfDeletedItems singletonNStore
      [{ MetaDataName := "n" }, { MetaDataName := "m" }] =
      singletonNStore.filter
        (fun prov =>
          [({ MetaDataName := "n" } : MetaDataAndOwnerReferences),
           { MetaDataName := "m" }].any
            fun t => decide (t.MetaDataName = prov.Name)) :=
  purge_retains_named_records _ _ (by decide)

/-! ## Claim C5 -/

/-- `updateScan` distributes over list append. -/
lemma updateScan_append (k n st : String) (tr : List CompositionTreeNode) :
    ∀ (l1 l2 : List Provenance),
      updateScan k n st tr (l1 ++ l2) =
        ((updateScan k n st tr l1).1 ++ (updateScan k n st tr l2).1,
         (updateScan k n st tr l1).2 || (updateScan k n st tr l2).2) := by
  intro l1 l2
  induction l1 with
  | nil => simp [updateScan]
  | cons p rest ih =>
    by_cases hc : p.Kind = k ∧ p.Name = n
    · simp [updateScan, hc, ih]
    · simp [updateScan, hc, ih]

/-- Rescanning an already-updated collection updates nothing further and
reports the same `present` flag. -/
lemma updateScan_idem (k n st : String) (tr : List CompositionTreeNode) :
    ∀ (l : List Provenance),
      updateScan k n st tr (updateScan k n st tr l).1 = updateScan k n st tr l := by
  intro l
  induction l with
  | nil => simp [updateScan]
  | cons p rest ih =>
    obtain ⟨pk, pn, ps, pt⟩ := p
    by_cases hc : pk = k ∧ pn = n
    · simp [updateScan, hc, ih]
    · simp [updateScan, hc, ih]

/-- C5: `storeProvenance` is idempotent — upserting the same
`(kind, name, tree, status)` twice leaves the store exactly as after the
first call. -/
theorem storeProvenance_idempotent (cp : List Provenance)
    (topLevelObject : MetaDataAndOwnerReferences)
    (resourceKind resourceName : String)
    (compositionTree : List CompositionTreeNode) :
    storeProvenance (storeProvenance cp topLevelObject resourceKind resourceName
        compositionTree) topLevelObject resourceKind resourceName compositionTree =
      storeProvenance cp topLevelObject resourceKind resourceName compositionTree := by
  unfold storeProvenance
  by_cases hp : (updateScan resourceKind resourceName topLevelObject.Status
      compositionTree cp).2
  · simp only [hp, if_true]
    rw [updateScan_idem]
    simp [hp]
  · simp only [hp, Bool.false_eq_true, if_false]
    rw [updateScan_append, updateScan_idem]
    simp [hp, updateScan]

/-! ## Claim C6 -/

/-- A scan of a collection with no matching record changes nothing and
reports absence. -/
lemma updateScan_no_match (k n st : String) (tr : List CompositionTreeNode) :
    ∀ (l : List Provenance),
      (∀ p ∈ l, ¬(p.Kind = k ∧ p.Name = n)) →
      updateScan k n st tr l = (l, false) := by
  intro l
  induction l with
  | nil => intro _; simp [updateScan]
  | cons p rest ih =>
    intro h
    have hp : ¬(p.Kind = k ∧ p.Name = n) := h p (List.mem_cons_self p rest)
    simp [updateScan, hp, ih (fun q hq => h q (List.mem_cons_of_mem p hq))]

/-- A scan of a collection whose only matching record sits at index `i`
replaces exactly that record in place and reports presence. -/
lemma updateScan_unique_match (k n st : String) (tr : List CompositionTreeNode) :
    ∀ (l : List Provenance) (i : Nat) (hi : i < l.length),
      (l.get ⟨i, hi⟩).Kind = k → (l.get ⟨i, hi⟩).Name = n →
      (∀ j, (hj : j < l.length) → j ≠ i →
        ¬((l.get ⟨j, hj⟩).Kind = k ∧ (l.get ⟨j, hj⟩).Name = n)) →
      updateScan k n st tr l =
        (l.set i { l.get ⟨i, hi⟩ with Status := st, CompositionTree := tr },
         true) := by
  intro l
  induction l with
  | nil => intro i hi; simp at hi
  | cons p rest ih =>
    intro i hi hk hn huniq
    match i with
    | 0 =>
      have hrest : updateScan k n st tr rest = (rest, false) := by
        apply updateScan_no_match
        intro q hq
        obtain ⟨j, hget⟩ := List.mem_iff_get.mp hq
        have hu := huniq (j.1 + 1) (by simp [Nat.succ_lt_succ j.isLt])
          (Nat.succ_ne_zero j.1)
        rw [List.get_eq_getElem] at hget
        simp only [List.get_eq_getElem, List.getElem_cons_succ] at hu
        rw [hget] at hu
        simpa using hu
      simp only [List.get] at hk hn
      simp [updateScan, hrest, hk, hn, List.set]
    | Nat.succ i' =>
      have hp : ¬(p.Kind = k ∧ p.Name = n) := by
        have := huniq 0 (Nat.succ_pos _) (Nat.succ_ne_zero i').symm
        simpa using this
      have hrest := ih i' (Nat.lt_of_succ_lt_succ hi)
        (by simpa using hk) (by simpa using hn)
        (fun j hj hne => by
          have := huniq (j + 1) (Nat.succ_lt_succ hj)
            (fun hc => hne (Nat.succ_injective hc))
          simpa using this)
      simp [updateScan, hp, hrest, List.set]

/-- C6: `storeProvenance` either appends a new record at the end when no
record has the given identity, or — when the store satisfies the spec's
identity-uniqueness invariant and the record with that identity sits at
index `i` — replaces exactly that record's status and tree in place,
preserving its position and leaving every other record unchanged. -/
theorem storeProvenance_upsert_frame (cp : List Provenance)
    (topLevelObject : MetaDataAndOwnerReferences)
    (resourceKind resourceName : String)
    (compositionTree : List CompositionTreeNode) :
    ((∀ p ∈ cp, ¬(p.Kind = resourceKind ∧ p.Name = resourceName)) →
      storeProvenance cp topLevelObject resourceKind resourceName compositionTree =
        cp ++ [{ Kind := resourceKind, Name := resourceName,
                 Status := topLevelObject.Status,
                 CompositionTree := compositionTree }]) ∧
    (∀ i, (hi : i < cp.length) →
      (cp.get ⟨i, hi⟩).Kind = resourceKind →
      (cp.get ⟨i, hi⟩).Name = resourceName →
      (∀ j, (hj : j < cp.length) → j ≠ i →
        ¬((cp.get ⟨j, hj⟩).Kind = resourceKind ∧
          (cp.get ⟨j, hj⟩).Name = resourceName)) →
      storeProvenance cp topLevelObject resourceKind resourceName compositionTree =
        cp.set i
          { cp.get ⟨i, hi⟩ with
            Status := topLevelObject.Status, CompositionTree := compositionTree }) := by
  constructor
  · intro h
    unfold storeProvenance
    rw [updateScan_no_match _ _ _ _ _ h]
    simp
  · intro i hi hk hn huniq
    unfold storeProvenance
    rw [updateScan_unique_match _ _ _ _ _ i hi hk hn huniq]
    simp

/-- Witness for C6: a two-record store; upserting an existing identity
replaces it in place at index 1, and upserting a fresh identity appends. -/
theorem storeProvenance_upsert_frame_witness :
    (storeProvenance
        [{ Kind := "A", Name := "x", Status := "s1", CompositionTree := [] },
         { Kind := "B", Name := "y", Status := "s2", CompositionTree := [] }]
        { MetaDataName := "y", Status := "s3" } "B" "y" [] =
      [{ Kind := "A", Name := "x", Status := "s1", CompositionTree := [] },
       { Kind := "B", Name := "y", Status := "s3", CompositionTree := [] }]) ∧
    (storeProvenance
        [{ Kind := "A", Name := "x", Status := "s1", CompositionTree := [] }]
        { MetaDataName := "z", Status := "s4" } "C" "z" [] =
      [{ Kind := "A", Name := "x", Status := "s1", CompositionTree := [] },
       { Kind := "C", Name := "z", Status := "s4", CompositionTree := [] }]) := by
  constructor
  · exact (storeProvenance_upsert_frame _ _ _ _ _).2 1 (by decide) (by decide)
      (by decide) (by decide)
  · exact (storeProvenance_upsert_frame _ _ _ _ _).1 (by decide)

/-! ## Claim C1 (amended) -/

/-- A failed state propagates through the records loop. -/
lemma getProvenanceFold_none (fuel : Nat) (kpm : List (String × String))
    (qk qn : String) :
    ∀ cp : List Provenance,
      cp.foldl (getProvenanceStep fuel kpm qk qn) none = none := by
  intro cp
  induction cp with
  | nil => rfl
  | cons p rest ih => simpa [getProvenanceStep] using ih

/-- One loop iteration only ever appends to the compositions list. -/
lemma getProvenanceStep_sub (fuel : Nat) (kpm : List (String × String))
    (qk qn : String) (p : Provenance) (comps comps' : List Composition)
    (h : getProvenanceStep fuel kpm qk qn (some comps) p = some comps') :
    ∀ c ∈ comps, c ∈ comps' := by
  intro c hc
  simp only [getProvenanceStep] at h
  by_cases hm : recordMatches kpm qk qn p
  · rw [if_pos hm] at h
    cases hgc : getComposition fuel (strToLower p.Kind) (strToLower p.Name)
        p.Status 1 p.CompositionTree [] with
    | none => rw [hgc] at h; cases h
    | some pr =>
      rw [hgc] at h
      cases h
      exact List.mem_append_left _ hc
  · rw [if_neg hm] at h
    cases h
    exact hc

/-- Whatever the records loop starts with survives into its output. -/
lemma getProvenanceFold_mem (fuel : Nat) (kpm : List (String × String))
    (qk qn : String) :
    ∀ (cp : List Provenance) (comps out : List Composition),
      cp.foldl (getProvenanceStep fuel kpm qk qn) (some comps) = some out →
      ∀ c ∈ comps, c ∈ out := by
  intro cp
  induction cp with
  | nil =>
    intro comps out h c hc
    cases h
    exact hc
  | cons p rest ih =>
    intro comps out h c hc
    rw [List.foldl_cons] at h
    cases hstep : getProvenanceStep fuel kpm qk qn (some comps) p with
    | none => rw [hstep, getProvenanceFold_none] at h; cases h
    | some comps' =>
      rw [hstep] at h
      exact ih comps' out h c (getProvenanceStep_sub fuel kpm qk qn p comps comps' hstep c hc)

/-- The reconstruction of every matching record reaches the loop output. -/
lemma getProvenanceFold_main (fuel : Nat) (kpm : List (String × String))
    (qk qn : String) :
    ∀ (cp : List Provenance) (comps out : List Composition) (r : Provenance),
      cp.foldl (getProvenanceStep fuel kpm qk qn) (some comps) = some out →
      r ∈ cp → recordMatches kpm qk qn r = true →
      ∃ pr, getComposition fuel (strToLower r.Kind) (strToLower r.Name)
          r.Status 1 r.CompositionTree [] = some pr ∧ pr.1 ∈ out := by
  intro cp
  induction cp with
  | nil => intro comps out r _ hr; cases hr
  | cons p rest ih =>
    intro comps out r h hr hm
    rw [List.foldl_cons] at h
    rcases List.mem_cons.mp hr with hrp | hrrest
    · subst hrp
      have hstep : getProvenanceStep fuel kpm qk qn (some comps) r =
          match getComposition fuel (strToLower r.Kind) (strToLower r.Name)
              r.Status 1 r.CompositionTree [] with
          | none => none
          | some (composition, _) => some (comps ++ [composition]) := by
        simp only [getProvenanceStep]
        rw [if_pos hm]
      cases hgc : getComposition fuel (strToLower r.Kind) (strToLower r.Name)
          r.Status 1 r.CompositionTree [] with
      | none =>
        rw [hstep, hgc, getProvenanceFold_none] at h
        cases h
      | some pr =>
        rw [hstep, hgc] at h
        refine ⟨pr, rfl, ?_⟩
        exact getProvenanceFold_mem fuel kpm qk qn rest (comps ++ [pr.1]) out h pr.1
          (List.mem_append_right _ (List.mem_singleton.mpr rfl))
    · cases hstep : getProvenanceStep fuel kpm qk qn (some comps) p with
      | none => rw [hstep, getProvenanceFold_none] at h; cases h
      | some comps' =>
        rw [hstep] at h
        exact ih comps' out r h hrrest hm

/-- A successful reconstruction's root carries the level, kind, name and
status it was called with. -/
lemma getComposition_root_fields (fuel : Nat) (k nm st : String) (lv : Nat)
    (tr pl : List CompositionTreeNode)
    (pr : Composition × List CompositionTreeNode)
    (h : getComposition fuel k nm st lv tr pl = some pr) :
    pr.1.Level = lv ∧ pr.1.Kind = k ∧ pr.1.Name = nm ∧ pr.1.Status = st := by
  match fuel with
  | 0 => simp [getComposition] at h
  | Nat.succ f =>
    rw [getComposition] at h
    cases hloop : gcNodeLoop f tr tr pl [] with
    | none => rw [hloop] at h; cases h
    | some res =>
      rw [hloop] at h
      cases h
      exact ⟨rfl, rfl, rfl, rfl⟩

/-- C1 amended: a stored record is returned by every query whose kind,
looked up case-sensitively in the plural table and resolved back through
the case-insensitive reverse lookup, lands on the record's lowercased
kind, and whose non-wildcard name equals the record's name up to case:
the query output contains the record's reconstruction, rooted at level 1
with the record's lowercased kind and name and its status.  (The original
claim fails because the first plural-table lookup is case-sensitive; the
kind must be spelled as the table key, e.g. `Query("Deployment", "MyApp")`
matches a stored `(Deployment, myapp)`.) -/
theorem getProvenance_case_insensitive_match (fuel : Nat)
    (kindPluralMap : List (String × String)) (cp : List Provenance)
    (queryKind queryName : String) (out : List Composition) (r : Provenance)
    (hq : getProvenanceCompositions fuel kindPluralMap cp queryKind queryName =
      some out)
    (hr : r ∈ cp)
    (hkind : reverseLookupKind kindPluralMap (mapLookupD kindPluralMap queryKind) =
      strToLower r.Kind)
    (hwild : strToLower queryName ≠ "*")
    (hname : strToLower queryName = strToLower r.Name) :
    ∃ pr, getComposition fuel (strToLower r.Kind) (strToLower r.Name)
        r.Status 1 r.CompositionTree [] = some pr ∧
      pr.1 ∈ out ∧ pr.1.Level = 1 ∧ pr.1.Kind = strToLower r.Kind ∧
      pr.1.Name = strToLower r.Name ∧ pr.1.Status = r.Status := by
  have hm : recordMatches kindPluralMap queryKind queryName r = true := by
    unfold recordMatches
    simp only [if_neg hwild]
    exact decide_eq_true_eq.mpr ⟨hkind, hname⟩
  obtain ⟨pr, hgc, hmem⟩ := getProvenanceFold_main fuel kindPluralMap queryKind
    queryName cp [] out r hq hr hm
  obtain ⟨h1, h2, h3, h4⟩ := getComposition_root_fields fuel _ _ _ _ _ _ pr hgc
  exact ⟨pr, hgc, hmem, h1, h2, h3, h4⟩

/-- Witness for C1 amended: `Query("Deployment", "MyApp")` against the
stored record `(Deployment, myapp)` returns that record's reconstruction. -/
theorem getProvenance_case_insensitive_match_witness :
    ∃ pr, getComposition 2 (strToLower "Deployment") (strToLower "myapp")
        "" 1 [] [] = some pr ∧
      pr.1 ∈ [({ Level := 1, Kind := "deployment", Name := "myapp",
                 Status := "", Children := [] } : Composition)] ∧
      pr.1.Level = 1 ∧ pr.1.Kind = strToLower "Deployment" ∧
      pr.1.Name = strToLower "myapp" ∧ pr.1.Status = "" := by
  exact getProvenance_case_insensitive_match 2 deploymentKindPluralMap
    deploymentStore "Deployment" "MyApp"
    [{ Level := 1, Kind := "deployment", Name := "myapp", Status := "",
       Children := [] }]
    { Kind := "Deployment", Name := "myapp", Status := "", CompositionTree := [] }
    (by simp [getProvenanceCompositions, getProvenanceStep, recordMatches,
      mapLookupD, reverseLookupKind, strToLower, deploymentKindPluralMap,
      deploymentStore, getComposition, gcNodeLoop])
    (by simp [deploymentStore])
    (by decide) (by decide) (by decide)

/-! ## Claim C7 -/

/-- Evaluation of the status loop on a `statusFields` object: absent
numeric fields keep their Go zero value `0`, and the Ready overwrite fires
exactly on the code's condition. -/
lemma parseStatusMap_statusFields (phase : Option String)
    (r rr ar : Option Rat) :
    parseStatusMap {} (statusFields phase r rr ar) =
      Except.ok
        (if 0 < r.getD 0 ∧ r.getD 0 = ar.getD 0 ∧ r.getD 0 = rr.getD 0 then
          { Status := "Ready" }
        else
          { Status := phase.getD "" }) := by
  rcases phase with _ | p <;> rcases r with _ | v <;> rcases rr with _ | w <;>
    rcases ar with _ | u <;>
    simp [parseStatusMap, statusFields, Except.map, Except.bind]

/-- C7: status derivation from a parsed item's status fields.  When
`replicas`, `readyReplicas` and `availableReplicas` are present, `replicas`
is positive and all three are equal, the snapshot's status is `"Ready"`;
otherwise it is the raw `phase` value when present and empty when absent.
In particular `replicas=3, readyReplicas=3, availableReplicas=3` yields
`"Ready"` and `replicas=3, readyReplicas=2` yields the phase value (or
empty). -/
theorem parseStatusMap_ready_derivation (phase : Option String)
    (r rr ar : Option Rat) :
    (∀ v : Rat, 0 < v →
      parseStatusMap {} (statusFields phase (some v) (some v) (some v)) =
        Except.ok { Status := "Ready" }) ∧
    ((¬ ∃ v : Rat, r = some v ∧ 0 < v ∧ rr = some v ∧ ar = some v) →
      parseStatusMap {} (statusFields phase r rr ar) =
        Except.ok { Status := phase.getD "" }) ∧
    parseStatusMap {} (statusFields phase (some 3) (some 3) (some 3)) =
      Except.ok { Status := "Ready" } ∧
    parseStatusMap {} (statusFields phase (some 3) (some 2) ar) =
      Except.ok { Status := phase.getD "" } := by
  refine ⟨?_, ?_, ?_, ?_⟩
  · intro v hv
    rw [parseStatusMap_statusFields]
    simp [hv]
  · intro h
    rw [parseStatusMap_statusFields]
    have hc : ¬(0 < r.getD 0 ∧ r.getD 0 = ar.getD 0 ∧ r.getD 0 = rr.getD 0) := by
      rintro ⟨h1, h2, h3⟩
      rcases r with _ | v
      · simp at h1
      · simp only [Option.getD_some] at h1 h2 h3
        rcases rr with _ | w
        · rw [Option.getD_none] at h3
          rw [h3] at h1
          exact lt_irrefl 0 h1
        · rcases ar with _ | u
          · rw [Option.getD_none] at h2
            rw [h2] at h1
            exact lt_irrefl 0 h1
          · rw [Option.getD_some] at h2 h3
            exact h ⟨v, rfl, h1, by rw [h3], by rw [h2]⟩
    simp [hc]
  · rw [parseStatusMap_statusFields]
    norm_num
  · rw [parseStatusMap_statusFields]
    have hc : ¬((0 : Rat) < (3 : Rat) ∧ (3 : Rat) = ar.getD 0 ∧
        (3 : Rat) = (2 : Rat)) := by
      rintro ⟨_, _, h3⟩
      norm_num at h3
    simp only [Option.getD_some]
    rw [if_neg hc]

/-- Witness for C7 at concrete field values: all replica counters equal
and positive yields `Ready`; a lagging `readyReplicas` falls back to the
phase value. -/
theorem parseStatusMap_ready_derivation_witness :
    parseStatusMap {} (statusFields (some "Running") (some 3) (some 3) (some 3)) =
      Except.ok { Status := "Ready" } ∧
    parseStatusMap {} (statusFields (some "Pending") (some 3) (some 2) none) =
      Except.ok { Status := "Pending" } := by
  constructor
  · exact (parseStatusMap_ready_derivation (some "Running") (some 3) (some 3)
      (some 3)).1 3 (by norm_num)
  · exact (parseStatusMap_ready_derivation (some "Pending") (some 3) (some 2)
      none).2.2.2

/-! ## Claim C8 -/

/-- Every child named in a successful depth fold has a defined chain depth
strictly below the fold's result. -/
lemma chainDepthList_bounds (cm : List (String × List String)) (f : Nat) :
    ∀ (cs : List String) (a d : Nat), chainDepthList f cm cs a = some d →
      a ≤ d ∧ ∀ c ∈ cs, ∃ dc, chainDepth f cm c = some dc ∧ dc + 1 ≤ d := by
  intro cs
  induction cs with
  | nil =>
    intro a d h
    rw [chainDepthList] at h
    cases h
    exact ⟨Nat.le_refl _, by intro c hc; cases hc⟩
  | cons c rest ih =>
    intro a d h
    rw [chainDepthList] at h
    cases hc : chainDepth f cm c with
    | none => rw [hc] at h; cases h
    | some dc =>
      rw [hc] at h
      obtain ⟨hmax, hrest⟩ := ih (max a (dc + 1)) d h
      refine ⟨Nat.le_trans (Nat.le_max_left _ _) hmax, ?_⟩
      intro c' hc'
      rcases List.mem_cons.mp hc' with rfl | hmem
      · exact ⟨dc, hc, Nat.le_trans (Nat.le_max_right _ _) hmax⟩
      · exact hrest c' hmem

/-- A successful depth fold's result is its start value or is attained by
some child's chain depth plus one. -/
lemma chainDepthList_attained (cm : List (String × List String)) (f : Nat) :
    ∀ (cs : List String) (a d : Nat), chainDepthList f cm cs a = some d →
      d = a ∨ ∃ c ∈ cs, ∃ dc, chainDepth f cm c = some dc ∧ d = dc + 1 := by
  intro cs
  induction cs with
  | nil =>
    intro a d h
    rw [chainDepthList] at h
    cases h
    exact Or.inl rfl
  | cons c rest ih =>
    intro a d h
    rw [chainDepthList] at h
    cases hc : chainDepth f cm c with
    | none => rw [hc] at h; cases h
    | some dc =>
      rw [hc] at h
      rcases ih (max a (dc + 1)) d h with heq | ⟨c', hmem, dc', hdc', hde⟩
      · rcases Nat.le_total (dc + 1) a with hle | hle
        · exact Or.inl (by rw [heq, Nat.max_eq_left hle])
        · refine Or.inr ⟨c, List.mem_cons_self c rest, dc, hc, ?_⟩
          rw [heq, Nat.max_eq_right hle]
      · exact Or.inr ⟨c', List.mem_cons_of_mem c hmem, dc', hdc', hde⟩

/-- Sufficiency: whenever the schema's chain depth of the start kind is
defined (the schema is acyclic below it) and the fuel exceeds it, the
build succeeds for every lister, name, level and accumulated tree. -/
lemma buildProvenance_isSome_of_chainDepth
    (cm : List (String × List String)) :
    ∀ (f0 : Nat) (k : String) (d : Nat), chainDepth f0 cm k = some d →
    ∀ (fuel : Nat), d < fuel →
    ∀ (lister : String → List MetaDataAndOwnerReferences) (nm : String)
      (level : Nat) (tree : List CompositionTreeNode),
      ∃ t, buildProvenance fuel cm lister k nm level tree = some t := by
  intro f0
  induction f0 with
  | zero => intro k d h; rw [chainDepth] at h; cases h
  | succ f0' ih =>
    intro k d hcd fuel hlt lister nm level tree
    obtain ⟨m, rfl⟩ : ∃ m, fuel = m + 1 := ⟨fuel - 1, by omega⟩
    rw [buildProvenance]
    cases hal : assocLookup cm k with
    | none => exact ⟨tree, rfl⟩
    | some cs =>
      rw [chainDepth, hal] at hcd
      have hbounds := (chainDepthList_bounds cm f0' cs 0 d hcd).2
      have hloop : ∀ (cs' : List String),
          (∀ c ∈ cs', ∃ dc, chainDepth f0' cm c = some dc ∧ dc + 1 ≤ d) →
          ∀ (level' : Nat) (tree' : List CompositionTreeNode),
            ∃ t, buildChildKinds m cm lister nm level' cs' tree' = some t := by
        intro cs'
        induction cs' with
        | nil =>
          intro _ level' tree'
          exact ⟨tree', by rw [buildChildKinds]⟩
        | cons c rest ihcs =>
          intro hc level' tree'
          obtain ⟨dc, hdc, hdcle⟩ := hc c (List.mem_cons_self c rest)
          have hmembers : ∀ (members : List MetaDataAndOwnerReferences)
              (tree'' : List CompositionTreeNode),
              ∃ t, buildMembers m cm lister c level' members tree'' = some t := by
            intro members
            induction members with
            | nil => intro tree''; exact ⟨tree'', by rw [buildMembers]⟩
            | cons mm ms ihm =>
              intro tree''
              obtain ⟨t1, ht1⟩ := ih c dc hdc m (by omega) lister
                mm.MetaDataName level' tree''
              obtain ⟨t2, ht2⟩ := ihm t1
              refine ⟨t2, ?_⟩
              rw [buildMembers, ht1]
              exact ht2
          obtain ⟨t1, ht1⟩ := hmembers
            (filterChildren (lister c) nm)
            (tree' ++ [{ Level := level', ChildKind := c,
                         Children := filterChildren (lister c) nm }])
          obtain ⟨t2, ht2⟩ := ihcs
            (fun c' hc' => hc c' (List.mem_cons_of_mem c hc')) level' t1
          refine ⟨t2, ?_⟩
          simp only [buildChildKinds]
          rw [ht1]
          exact ht2
      exact hloop cs hbounds (level + 1) tree

/-- Tightness: against `selfOwnerLister n0`, starting from name `n0`, the
build exhausts any fuel equal to the start kind's chain depth — the
recursion really is as deep as the longest child-chain. -/
lemma buildProvenance_none_at_chainDepth
    (cm : List (String × List String)) (n0 : String) :
    ∀ (f0 : Nat) (k : String) (d : Nat), chainDepth f0 cm k = some d →
    ∀ (level : Nat) (tree : List CompositionTreeNode),
      buildProvenance d cm (selfOwnerLister n0) k n0 level tree = none := by
  intro f0
  induction f0 with
  | zero => intro k d h; rw [chainDepth] at h; cases h
  | succ f0' ih =>
    intro k d hcd level tree
    cases hal : assocLookup cm k with
    | none =>
      rw [chainDepth, hal] at hcd
      cases hcd
      rw [buildProvenance]
    | some cs =>
      rw [chainDepth, hal] at hcd
      match d, hcd with
      | 0, _ => rw [buildProvenance]
      | Nat.succ e, hcd =>
        rcases chainDepthList_attained cm f0' cs 0 (e + 1) hcd with heq |
          ⟨c, hcmem, dc, hdc, hde⟩
        · cases heq
        · have hdc' : chainDepth f0' cm c = some e := by
            have : dc = e := by omega
            rw [← this]; exact hdc
          have hbpc := ih c e hdc'
          have hloop : ∀ (cs' : List String) (level' : Nat)
              (tree' : List CompositionTreeNode), c ∈ cs' →
              buildChildKinds e cm (selfOwnerLister n0) n0 level' cs' tree' =
                none := by
            intro cs'
            induction cs' with
            | nil => intro level' tree' hmem; cases hmem
            | cons c1 rest ihcs =>
              intro level' tree' hmem
              have hfc : filterChildren (selfOwnerLister n0 c1) n0 =
                  [{ MetaDataName := n0, OwnerReferenceName := n0 }] := by
                simp [selfOwnerLister, filterChildren]
              simp only [buildChildKinds, hfc]
              rcases List.mem_cons.mp hmem with rfl | hmr
              · simp only [buildMembers]
                rw [hbpc]
              · split
                · rfl
                · exact ihcs _ _ hmr
          rw [buildProvenance]
          simp only [hal]
          exact hloop cs (level + 1) tree hcmem

/-- C8: for every schema whose chain depth below the start kind is defined
(no cycle is reachable), the build terminates for every lister, name and
start state within fuel `d + 1`, where `d` is the longest child-chain
length from the start kind; that bound is attained — with the
self-owner lister, fuel `d` is exhausted — so the maximum recursion depth
equals the longest child-chain length; and a kind absent from the schema
or with an empty children declaration returns its input immediately at
fuel `1`, i.e. without recursing. -/
theorem buildProvenance_terminates_at_chain_depth
    (cm : List (String × List String)) (f0 : Nat) (k : String) (d : Nat)
    (hcd : chainDepth f0 cm k = some d) :
    (∀ (lister : String → List MetaDataAndOwnerReferences) (nm : String)
       (level : Nat) (tree : List CompositionTreeNode),
      ∃ t, buildProvenance (d + 1) cm lister k nm level tree = some t) ∧
    (∀ (n0 : String) (level : Nat) (tree : List CompositionTreeNode),
      buildProvenance d cm (selfOwnerLister n0) k n0 level tree = none) ∧
    (assocLookup cm k = none →
      ∀ (lister : String → List MetaDataAndOwnerReferences) (nm : String)
        (level : Nat) (tree : List CompositionTreeNode),
        buildProvenance 1 cm lister k nm level tree = some tree) ∧
    (assocLookup cm k = some [] →
      ∀ (lister : String → List MetaDataAndOwnerReferences) (nm : String)
        (level : Nat) (tree : List CompositionTreeNode),
        buildProvenance 1 cm lister k nm level tree = some tree) := by
  refine ⟨?_, ?_, ?_, ?_⟩
  · intro lister nm level tree
    exact buildProvenance_isSome_of_chainDepth cm f0 k d hcd (d + 1)
      (Nat.lt_succ_self d) lister nm level tree
  · intro n0 level tree
    exact buildProvenance_none_at_chainDepth cm n0 f0 k d hcd level tree
  · intro hal lister nm level tree
    rw [buildProvenance, hal]
  · intro hal lister nm level tree
    rw [buildProvenance, hal]
    show buildChildKinds 0 cm lister nm (level + 1) [] tree = some tree
    rw [buildChildKinds]

/-- Witness for C8 on the schema `{A → [B], B → []}` (longest chain 1
from `A`, leaves `B` and the undeclared `C`): fuel 2 suffices for every
start state, fuel 1 is exhausted by the self-owner lister, and both leaf
flavours return immediately at fuel 1. -/
theorem buildProvenance_terminates_at_chain_depth_witness :
    (∃ t, buildProvenance 2 abCompositionMap abLister "A" "a1" 1 [] = some t) ∧
    buildProvenance 1 abCompositionMap (selfOwnerLister "x") "A" "x" 1 [] =
      none ∧
    buildProvenance 1 abCompositionMap abLister "C" "c1" 1 [] = some [] ∧
    buildProvenance 1 abCompositionMap abLister "B" "b1" 1 [] = some [] := by
  have hA : chainDepth 2 abCompositionMap "A" = some 1 := by
    simp [chainDepth, chainDepthList, abCompositionMap, assocLookup]
  have hB : chainDepth 1 abCompositionMap "B" = some 0 := by
    simp [chainDepth, chainDepthList, abCompositionMap, assocLookup]
  have hC : chainDepth 1 abCompositionMap "C" = some 0 := by
    simp [chainDepth, abCompositionMap, assocLookup]
  refine ⟨?_, ?_, ?_, ?_⟩
  · exact (buildProvenance_terminates_at_chain_depth abCompositionMap 2 "A" 1
      hA).1 abLister "a1" 1 []
  · exact (buildProvenance_terminates_at_chain_depth abCompositionMap 2 "A" 1
      hA).2.1 "x" 1 []
  · exact (buildProvenance_terminates_at_chain_depth abCompositionMap 1 "C" 0
      hC).2.2.1 (by simp [abCompositionMap, assocLookup]) abLister "c1" 1 []
  · exact (buildProvenance_terminates_at_chain_depth abCompositionMap 1 "B" 0
      hB).2.2.2 (by simp [abCompositionMap, assocLookup]) abLister "b1" 1 []

end Kubediscovery
